import Mathlib

/-!
Shallow embedding of the "library runtime" core of the fixture libraries
`tests/Fixtures/Integration/math_library.c` and
`tests/Fixtures/Integration/string_utils.c`.

Modelling conventions:
* The process-wide error register (`static MathError last_error` /
  `static StringError last_error`) is modelled by having every operation
  return the list of writes it performs on the register (its write trace),
  in order.  The register value after a call is the last write applied to
  the old value (`regAfter`).
* Nullable pointers are `Option`; `none` is NULL.
* `malloc` success/failure is an explicit `Bool` oracle argument
  (`true` = allocation succeeds).
* C strings are byte lists (`List Char`); string heap storage is modelled
  by a small allocator `Heap` mapping addresses (`Nat`) to live string
  contents, so that deep-copy/aliasing claims are statable.
* `size_t` is `Nat`; C `int` array elements are `Int` (no arithmetic in
  the claims overflows); `double` progress fractions are exact rationals.
-/

/-- Register value after applying a write trace to an old register value. -/
def regAfter {α : Type} (old : α) (tr : List α) : α :=
  tr.foldl (fun _ e => e) old

theorem regAfter_append {α : Type} (old : α) (t1 t2 : List α) :
    regAfter old (t1 ++ t2) = regAfter (regAfter old t1) t2 := by
  simp [regAfter, List.foldl_append]

theorem regAfter_ne_nil {α : Type} (old : α) (tr : List α) (h : tr ≠ []) :
    regAfter old tr = tr.getLast h := by
  induction tr generalizing old with
  | nil => exact absurd rfl h
  | cons a t ih =>
    cases t with
    | nil => rfl
    | cons b t2 =>
      rw [List.getLast_cons (by simp)]
      exact ih a (by simp)

/-- `MathError` enumeration from `math_library.h`. -/
inductive MathError where
  | success
  | nullPointer
  | invalidArgument
  | divisionByZero
  | outOfMemory
  | indexOutOfBounds
  deriving DecidableEq, Repr

/-- `StringError` enumeration from `string_utils.h`. -/
inductive StringError where
  | success
  | nullPointer
  | invalidArgument
  | outOfMemory
  | indexOutOfBounds
  | parseError
  deriving DecidableEq, Repr

/-- `Point2D` from `math_library.h` (coordinates modelled as exact rationals). -/
structure Point2D where
  x : Rat
  y : Rat
  deriving DecidableEq, Repr

/-- `PointArray` from `math_library.h`: `points` models the initialised
prefix of the element buffer (so `points.length` is the `count` field);
`capacity` is the buffer capacity fixed at creation. -/
structure PointArray where
  points : List Point2D
  capacity : Nat
  deriving DecidableEq, Repr

/-- The string heap: `mem p = some s` means address `p` holds live string
`s`; `next` is the next fresh address, so every allocation is fresh. -/
structure Heap where
  mem : Nat → Option (List Char)
  next : Nat

def Heap.read (h : Heap) (p : Nat) : Option (List Char) := h.mem p

def Heap.write (h : Heap) (p : Nat) (v : Option (List Char)) : Heap :=
  ⟨fun q => if q = p then v else h.mem q, h.next⟩

def Heap.alloc (h : Heap) (s : List Char) : Heap × Nat :=
  (⟨fun q => if q = h.next then some s else h.mem q, h.next + 1⟩, h.next)

/-- Well-formed heap: addresses at or beyond `next` are unallocated. -/
def Heap.WF (h : Heap) : Prop := ∀ p, h.next ≤ p → h.mem p = none

/-- `StringArray` from `string_utils.h`: `strings` models the initialised
prefix of the `char**` buffer, holding the heap addresses of the stored
copies (`strings.length` is the `count` field). -/
structure StringArray where
  strings : List Nat
  capacity : Nat
  deriving DecidableEq, Repr

/- ### math_library.c operations -/

/-- `math_sum_array` (math_library.c:49): null check, then sum. -/
def math_sum_array (arr : Option (List Int)) : Int × List MathError :=
  match arr with
  | none => (0, [MathError.nullPointer])
  | some l => (l.sum, [MathError.success])

/-- `math_average_array` (math_library.c:63): null/empty check, then the
nested `math_sum_array` call (whose register write is part of this call's
trace); since the array is non-null there, the nested call always sets
SUCCESS, so the `last_error != MATH_SUCCESS` early return is not taken. -/
def math_average_array (arr : Option (List Int)) : Rat × List MathError :=
  match arr with
  | none => (0, [MathError.invalidArgument])
  | some l =>
      if l.length = 0 then (0, [MathError.invalidArgument])
      else
        let s := math_sum_array (some l)
        ((s.1 : Rat) / (l.length : Rat), s.2)

/-- `math_create_point_array` (math_library.c:209).  `ok1`/`ok2` are the
success of the two mallocs (container, then element buffer). -/
def math_create_point_array (ok1 ok2 : Bool) (cap : Nat) :
    Option PointArray × List MathError :=
  if cap = 0 then (none, [MathError.invalidArgument])
  else if !ok1 then (none, [MathError.outOfMemory])
  else if !ok2 then (none, [MathError.outOfMemory])
  else (some ⟨[], cap⟩, [MathError.success])

/-- `math_destroy_point_array` (math_library.c:234): only the register
write trace is modelled (the buffers are not heap-resident in this model). -/
def math_destroy_point_array (arr : Option PointArray) : List MathError :=
  match arr with
  | none => [MathError.nullPointer]
  | some _ => [MathError.success]

/-- `math_add_point` (math_library.c:247): returns the updated array, the
C return code (0 success / -1 failure) and the register write trace. -/
def math_add_point (arr : Option PointArray) (p : Option Point2D) :
    Option PointArray × Int × List MathError :=
  match arr, p with
  | none, _ => (none, -1, [MathError.nullPointer])
  | some a, none => (some a, -1, [MathError.nullPointer])
  | some a, some pt =>
      if a.capacity ≤ a.points.length then
        (some a, -1, [MathError.indexOutOfBounds])
      else
        (some ⟨a.points ++ [pt], a.capacity⟩, 0, [MathError.success])

/-- `math_get_point` (math_library.c:264). -/
def math_get_point (arr : Option PointArray) (idx : Nat) :
    Option Point2D × List MathError :=
  match arr with
  | none => (none, [MathError.nullPointer])
  | some a =>
      if idx < a.points.length then (a.points[idx]?, [MathError.success])
      else (none, [MathError.indexOutOfBounds])

/-- `math_get_point_count` (math_library.c:279). -/
def math_get_point_count (arr : Option PointArray) : Nat × List MathError :=
  match arr with
  | none => (0, [MathError.nullPointer])
  | some a => (a.points.length, [MathError.success])

/- ### string_utils.c operations -/

/-- `string_duplicate` (string_utils.c:11): null check, `malloc` (oracle
`allocOk`), byte copy into a fresh heap cell.  Dereferencing an address
with no live string is undefined in C; the model reads it as `[]`. -/
def string_duplicate (allocOk : Bool) (h : Heap) (p : Option Nat) :
    Heap × Option Nat × List StringError :=
  match p with
  | none => (h, none, [StringError.nullPointer])
  | some addr =>
      if allocOk then
        let bytes := (h.read addr).getD []
        let r := h.alloc bytes
        (r.1, some r.2, [StringError.success])
      else (h, none, [StringError.outOfMemory])

/-- `string_array_create` (string_utils.c:234). -/
def string_array_create (ok1 ok2 : Bool) (cap : Nat) :
    Option StringArray × List StringError :=
  if cap = 0 then (none, [StringError.invalidArgument])
  else if !ok1 then (none, [StringError.outOfMemory])
  else if !ok2 then (none, [StringError.outOfMemory])
  else (some ⟨[], cap⟩, [StringError.success])

/-- `string_array_destroy` (string_utils.c:259): frees the `count` stored
copies (the pointer buffer and container are not heap-resident here). -/
def string_array_destroy (h : Heap) (arr : Option StringArray) :
    Heap × List StringError :=
  match arr with
  | none => (h, [StringError.nullPointer])
  | some a =>
      (a.strings.foldl (fun hh p => hh.write p none) h, [StringError.success])

/-- `string_array_add` (string_utils.c:273): null checks, capacity check,
then the nested `string_duplicate` (its register writes belong to this
call's trace); on duplication failure the error set by `string_duplicate`
is left in place and `count` is not advanced. -/
def string_array_add (allocOk : Bool) (h : Heap) (arr : Option StringArray)
    (p : Option Nat) : Heap × Option StringArray × Int × List StringError :=
  match arr, p with
  | none, _ => (h, none, -1, [StringError.nullPointer])
  | some a, none => (h, some a, -1, [StringError.nullPointer])
  | some a, some addr =>
      if a.capacity ≤ a.strings.length then
        (h, some a, -1, [StringError.indexOutOfBounds])
      else
        let d := string_duplicate allocOk h (some addr)
        match d.2.1 with
        | none => (d.1, some a, -1, d.2.2)
        | some q =>
            (d.1, some ⟨a.strings ++ [q], a.capacity⟩, 0,
              d.2.2 ++ [StringError.success])

/-- `string_array_get` (string_utils.c:294): returns the stored address
(the C function returns the internal `char*`, not a copy). -/
def string_array_get (arr : Option StringArray) (idx : Nat) :
    Option Nat × List StringError :=
  match arr with
  | none => (none, [StringError.nullPointer])
  | some a =>
      if idx < a.strings.length then (a.strings[idx]?, [StringError.success])
      else (none, [StringError.indexOutOfBounds])

/-- `string_array_size` (string_utils.c:309). -/
def string_array_size (arr : Option StringArray) : Nat × List StringError :=
  match arr with
  | none => (0, [StringError.nullPointer])
  | some a => (a.strings.length, [StringError.success])

/- ### callback operations (math_library.c) -/

/-- One run of the inner loop of the bubble sort in
`math_sort_array_with_callback` (math_library.c:321-328): at most `n`
adjacent compare-and-swap steps starting at index 0 (`j < n`), carrying
the larger of each compared pair forward, exactly as the in-place
adjacent swaps do. -/
def passUpTo (c : Int → Int → Int) : Nat → List Int → List Int
  | 0, l => l
  | _ + 1, [] => []
  | _ + 1, [a] => [a]
  | n + 1, a :: b :: rest =>
      if 0 < c a b then b :: passUpTo c n (a :: rest)
      else a :: passUpTo c n (b :: rest)

/-- The outer loop of the bubble sort: called with `k = length - 1`, it
performs passes with inner bounds `length - 1, length - 2, ..., 1`,
matching `for (i = 0; i < length - 1; i++)` with inner bound
`length - i - 1`. -/
def sortLoop (c : Int → Int → Int) : Nat → List Int → List Int
  | 0, l => l
  | k + 1, l => sortLoop c k (passUpTo c (k + 1) l)

/-- `math_sort_array_with_callback` (math_library.c:314): NULL/zero-length
guard (all three failures set MATH_ERROR_NULL_POINTER), then bubble sort.
The comparator callback is `Option` (`none` is a NULL function pointer). -/
def math_sort_array_with_callback (arr : Option (List Int))
    (cmp : Option (Int → Int → Int)) : Option (List Int) × List MathError :=
  match arr, cmp with
  | none, _ => (none, [MathError.nullPointer])
  | some l, none => (some l, [MathError.nullPointer])
  | some l, some c =>
      if l.length = 0 then (some l, [MathError.nullPointer])
      else (some (sortLoop c (l.length - 1) l), [MathError.success])

/-- The loop of `math_process_with_progress` (math_library.c:340-347):
doubles each element and records the reported progress fractions
`(i + 1) / n` in order (`n` is the total length, `i` the current index). -/
def processLoop (n : Nat) : List Int → Nat → List Int × List Rat
  | [], _ => ([], [])
  | x :: rest, i =>
      let r := processLoop n rest (i + 1)
      ((x * 2) :: r.1, (((i : Rat) + 1) / (n : Rat)) :: r.2)

/-- `math_process_with_progress` (math_library.c:334): NULL/zero-length
guard, then the processing loop.  The progress callback is modelled by
its presence (`hasCb`) plus the recorded list of values it receives. -/
def math_process_with_progress (arr : Option (List Int)) (hasCb : Bool) :
    Option (List Int) × List Rat × List MathError :=
  match arr, hasCb with
  | none, _ => (none, [], [MathError.nullPointer])
  | some l, false => (some l, [], [MathError.nullPointer])
  | some l, true =>
      if l.length = 0 then (some l, [], [MathError.nullPointer])
      else
        let r := processLoop l.length l 0
        (some r.1, r.2, [MathError.success])

/- ### iterated appends (client-side loops used by the testable properties) -/

/-- A caller loop performing one `math_add_point` per point of `ps`,
collecting the return codes. -/
def math_add_points : Option PointArray → List Point2D →
    Option PointArray × List Int
  | a, [] => (a, [])
  | a, p :: rest =>
      let r := math_add_point a (some p)
      let r2 := math_add_points r.1 rest
      (r2.1, r.2.1 :: r2.2)

/-- A caller loop performing one `string_array_add` (with succeeding
allocations) per source address of `ps`, collecting the return codes. -/
def string_array_add_all : Heap → Option StringArray → List Nat →
    Heap × Option StringArray × List Int
  | h, a, [] => (h, a, [])
  | h, a, p :: rest =>
      let r := string_array_add true h a (some p)
      let r2 := string_array_add_all r.1 r.2.1 rest
      (r2.1, r2.2.1, r.2.2.1 :: r2.2.2)

/- ### reachable collection states -/

/-- Point-array states reachable through the public constructor and
append operation. -/
inductive ReachablePA : PointArray → Prop where
  | create (cap : Nat) (hcap : cap ≠ 0) : ReachablePA ⟨[], cap⟩
  | add (a : PointArray) (p : Point2D) (a' : PointArray)
      (ha : ReachablePA a)
      (hstep : (math_add_point (some a) (some p)).1 = some a') :
      ReachablePA a'

/-- String-array states reachable through the public constructor and
append operation (any heap, any allocation outcome). -/
inductive ReachableSA : StringArray → Prop where
  | create (cap : Nat) (hcap : cap ≠ 0) : ReachableSA ⟨[], cap⟩
  | add (ok : Bool) (h : Heap) (a : StringArray) (p : Option Nat)
      (a' : StringArray) (ha : ReachableSA a)
      (hstep : (string_array_add ok h (some a) p).2.1 = some a') :
      ReachableSA a'

/-- A valid total-order comparator in the sense of §4.4: the sign of
`c a b` is the strict order (antisymmetry of the strict parts) and the
induced `c a b ≤ 0` relation is transitive. -/
def ValidComparator (c : Int → Int → Int) : Prop :=
  (∀ a b, 0 < c a b ↔ c b a < 0) ∧
  (∀ a b d, c a b ≤ 0 → c b d ≤ 0 → c a d ≤ 0)

/-- Non-decreasing under comparator `c`. -/
def SortedC (c : Int → Int → Int) (l : List Int) : Prop :=
  l.Chain' (fun a b => c a b ≤ 0)

/-- The list of progress fractions reported by `math_process_with_progress`
over a buffer of length `n`: `(j + 1) / n` for `j = 0, ..., n - 1`. -/
def progressValues (n : Nat) : List Rat :=
  (List.range n).map (fun j => ((j + 1 : Nat) : Rat) / (n : Rat))

/-- The subtraction comparator (ascending order on integers), used as a
concrete valid total-order comparator. -/
def cmpSub : Int → Int → Int := fun a b => a - b

/- ### bubble sort lemmas -/

theorem passUpTo_perm (c : Int → Int → Int) (n : Nat) (l : List Int) :
    (passUpTo c n l).Perm l := by
  induction n generalizing l with
  | zero => simp [passUpTo]
  | succ n ih =>
    match l with
    | [] => simp [passUpTo]
    | [a] => simp [passUpTo]
    | a :: b :: rest =>
      simp only [passUpTo]
      split
      · exact ((ih (a :: rest)).cons b).trans (List.Perm.swap a b rest)
      · exact (ih (b :: rest)).cons a

theorem passUpTo_length (c : Int → Int → Int) (n : Nat) (l : List Int) :
    (passUpTo c n l).length = l.length :=
  (passUpTo_perm c n l).length_eq

/-- A pass whose bound covers exactly the prefix `l1` never touches the
tail `l2`. -/
theorem passUpTo_append (c : Int → Int → Int) (n : Nat) (l1 l2 : List Int)
    (hl : l1.length = n + 1) :
    passUpTo c n (l1 ++ l2) = passUpTo c n l1 ++ l2 := by
  induction n generalizing l1 with
  | zero => simp [passUpTo]
  | succ n ih =>
    cases l1 with
    | nil => simp at hl
    | cons a t =>
      cases t with
      | nil => simp at hl
      | cons b rest =>
        have hr : (a :: rest).length = n + 1 := by
          simp at hl ⊢; omega
        have hr' : (b :: rest).length = n + 1 := by
          simp at hl ⊢; omega
        simp only [List.cons_append, passUpTo]
        split
        · rw [show (a :: rest.append l2) = ((a :: rest) ++ l2) from rfl,
            ih (a :: rest) hr]
          exact (List.cons_append _ _ _).symm
        · rw [show (b :: rest.append l2) = ((b :: rest) ++ l2) from rfl,
            ih (b :: rest) hr']
          exact (List.cons_append _ _ _).symm

/-- A pass over an already `c`-sorted list makes no swap at all. -/
theorem passUpTo_of_sorted (c : Int → Int → Int) (n : Nat) (l : List Int)
    (hs : SortedC c l) : passUpTo c n l = l := by
  induction n generalizing l with
  | zero => rfl
  | succ n ih =>
    cases l with
    | nil => rfl
    | cons a t =>
      cases t with
      | nil => rfl
      | cons b rest =>
        have hab : c a b ≤ 0 := (List.chain'_cons.mp hs).1
        simp only [passUpTo, if_neg (by omega : ¬ 0 < c a b)]
        rw [ih (b :: rest) (List.chain'_cons.mp hs).2]

/-- A full pass moves a `c`-maximum of the list to the last position. -/
theorem passUpTo_max (c : Int → Int → Int) (hv : ValidComparator c)
    (n : Nat) (l : List Int) (hlen : l.length ≤ n + 1) (hne : l ≠ []) :
    ∃ init m, passUpTo c n l = init ++ [m] ∧ ∀ x ∈ init, c x m ≤ 0 := by
  induction n generalizing l with
  | zero =>
    cases l with
    | nil => exact absurd rfl hne
    | cons a t =>
      cases t with
      | nil => exact ⟨[], a, rfl, by simp⟩
      | cons b rest => simp at hlen
  | succ n ih =>
    cases l with
    | nil => exact absurd rfl hne
    | cons a t =>
      cases t with
      | nil => exact ⟨[], a, rfl, by simp⟩
      | cons b rest =>
        simp only [passUpTo]
        by_cases hab : 0 < c a b
        · obtain ⟨init, m, heq, hmax⟩ :=
            ih (a :: rest) (by simp at hlen ⊢; omega) (by simp)
          refine ⟨b :: init, m, by rw [if_pos hab, heq]; rfl, ?_⟩
          intro x hx
          rcases List.mem_cons.mp hx with rfl | hx'
          · have hxa : c x a ≤ 0 := le_of_lt ((hv.1 a x).mp hab)
            have hmem : a ∈ init ++ [m] := by
              rw [← heq]
              exact (passUpTo_perm c n (a :: rest)).mem_iff.mpr
                (List.mem_cons_self a rest)
            rcases List.mem_append.mp hmem with ha1 | ha2
            · exact hv.2 x a m hxa (hmax a ha1)
            · simp at ha2
              exact ha2 ▸ hxa
          · exact hmax x hx'
        · obtain ⟨init, m, heq, hmax⟩ :=
            ih (b :: rest) (by simp at hlen ⊢; omega) (by simp)
          refine ⟨a :: init, m, by rw [if_neg hab, heq]; rfl, ?_⟩
          intro x hx
          rcases List.mem_cons.mp hx with rfl | hx'
          · have hxb : c x b ≤ 0 := by omega
            have hmem : b ∈ init ++ [m] := by
              rw [← heq]
              exact (passUpTo_perm c n (b :: rest)).mem_iff.mpr
                (List.mem_cons_self b rest)
            rcases List.mem_append.mp hmem with hb1 | hb2
            · exact hv.2 x b m hxb (hmax b hb1)
            · simp at hb2
              exact hb2 ▸ hxb
          · exact hmax x hx'

theorem sortLoop_perm (c : Int → Int → Int) (k : Nat) (l : List Int) :
    (sortLoop c k l).Perm l := by
  induction k generalizing l with
  | zero => exact List.Perm.refl l
  | succ k ih => exact (ih (passUpTo c (k + 1) l)).trans (passUpTo_perm c (k + 1) l)

theorem sortLoop_of_sorted (c : Int → Int → Int) (k : Nat) (l : List Int)
    (hs : SortedC c l) : sortLoop c k l = l := by
  induction k with
  | zero => rfl
  | succ k ih =>
    simp only [sortLoop]
    rw [passUpTo_of_sorted c (k + 1) l hs]
    exact ih

/-- Loop invariant of the bubble sort: if the untouched suffix `back` is
sorted and dominates the `k + 1`-element working prefix `front`, the
remaining `k` passes sort the whole buffer. -/
theorem sortLoop_sorted_of_split (c : Int → Int → Int)
    (hv : ValidComparator c) (k : Nat) :
    ∀ front back : List Int, front.length = k + 1 → SortedC c back →
      (∀ x ∈ front, ∀ y ∈ back, c x y ≤ 0) →
      SortedC c (sortLoop c k (front ++ back)) := by
  induction k with
  | zero =>
    intro front back hlen hs hfb
    cases front with
    | nil => simp at hlen
    | cons a t =>
      cases t with
      | nil =>
        simp only [sortLoop, List.cons_append, List.nil_append]
        exact List.chain'_cons'.mpr
          ⟨fun y hy => hfb a (by simp) y (List.mem_of_mem_head? hy), hs⟩
      | cons b rest => simp at hlen
  | succ k ih =>
    intro front back hlen hs hfb
    have hfront_ne : front ≠ [] := by
      intro h
      rw [h] at hlen
      simp at hlen
    simp only [sortLoop]
    rw [passUpTo_append c (k + 1) front back hlen]
    obtain ⟨init, m, heq, hmax⟩ :=
      passUpTo_max c hv (k + 1) front (by omega) hfront_ne
    have hm_mem : m ∈ front := by
      have : m ∈ init ++ [m] := by simp
      rw [← heq] at this
      exact (passUpTo_perm c (k + 1) front).mem_iff.mp this
    have hinit_mem : ∀ x ∈ init, x ∈ front := by
      intro x hx
      have : x ∈ init ++ [m] := List.mem_append_left _ hx
      rw [← heq] at this
      exact (passUpTo_perm c (k + 1) front).mem_iff.mp this
    have hinit_len : init.length = k + 1 := by
      have := passUpTo_length c (k + 1) front
      rw [heq] at this
      simp at this
      omega
    rw [heq, List.append_assoc]
    refine ih init (m :: back) hinit_len ?_ ?_
    · exact List.chain'_cons'.mpr
        ⟨fun y hy => hfb m hm_mem y (List.mem_of_mem_head? hy), hs⟩
    · intro x hx y hy
      rcases List.mem_cons.mp hy with rfl | hy'
      · exact hmax x hx
      · exact hfb x (hinit_mem x hx) y hy'

/-- The bubble sort in `math_sort_array_with_callback` sorts any nonempty
buffer whenever the comparator is a valid total order. -/
theorem sortLoop_sorted (c : Int → Int → Int) (hv : ValidComparator c)
    (l : List Int) (hne : l ≠ []) :
    SortedC c (sortLoop c (l.length - 1) l) := by
  have hpos : 0 < l.length := List.length_pos.mpr hne
  have h := sortLoop_sorted_of_split c hv (l.length - 1) l []
    (by omega) List.chain'_nil (by simp)
  simpa using h

/- ### progress loop lemmas -/

theorem processLoop_fst (n : Nat) (l : List Int) (i : Nat) :
    (processLoop n l i).1 = l.map (fun x => x * 2) := by
  induction l generalizing i with
  | nil => rfl
  | cons x rest ih => simp [processLoop, ih (i + 1)]

theorem processLoop_snd (n : Nat) (l : List Int) (i : Nat) :
    (processLoop n l i).2 =
      (List.range l.length).map
        (fun j => ((i + j + 1 : Nat) : Rat) / (n : Rat)) := by
  induction l generalizing i with
  | nil => rfl
  | cons x rest ih =>
    simp only [processLoop, ih (i + 1), List.length_cons,
      List.range_succ_eq_map, List.map_cons, List.map_map]
    congr 1
    · push_cast
      ring
    · apply List.map_congr_left
      intro j _
      have : i + 1 + j + 1 = i + (j + 1) + 1 := by omega
      simp [Function.comp, this]

/- ### iterated append lemmas -/

/-- Path lemma: successful `string_array_add` (non-full, allocation ok). -/
theorem string_array_add_success (h : Heap) (a : StringArray) (p : Nat)
    (hlt : a.strings.length < a.capacity) :
    string_array_add true h (some a) (some p) =
      ((h.alloc ((h.read p).getD [])).1,
        some ⟨a.strings ++ [h.next], a.capacity⟩, 0,
        [StringError.success, StringError.success]) := by
  simp [string_array_add, string_duplicate, Heap.alloc, not_le.mpr hlt]

/-- Path lemma: `string_array_add` when the duplication allocation fails. -/
theorem string_array_add_oom (h : Heap) (a : StringArray) (p : Nat)
    (hlt : a.strings.length < a.capacity) :
    string_array_add false h (some a) (some p) =
      (h, some a, -1, [StringError.outOfMemory]) := by
  simp [string_array_add, string_duplicate, not_le.mpr hlt]

/-- Path lemma: `string_array_add` on a full collection. -/
theorem string_array_add_full (ok : Bool) (h : Heap) (a : StringArray)
    (p : Nat) (hfull : a.capacity ≤ a.strings.length) :
    string_array_add ok h (some a) (some p) =
      (h, some a, -1, [StringError.indexOutOfBounds]) := by
  simp [string_array_add, hfull]

theorem math_add_points_ok (ps : List Point2D) :
    ∀ a : PointArray, a.points.length + ps.length ≤ a.capacity →
    math_add_points (some a) ps =
      (some ⟨a.points ++ ps, a.capacity⟩, List.replicate ps.length 0) := by
  induction ps with
  | nil =>
    intro a _
    simp [math_add_points]
  | cons p rest ih =>
    intro a hcap
    have hlt : ¬ a.capacity ≤ a.points.length := by
      simp at hcap
      omega
    have hstep := ih ⟨a.points ++ [p], a.capacity⟩ (by simp at hcap ⊢; omega)
    simp only [math_add_points, math_add_point, if_neg hlt, hstep]
    simp [List.replicate_succ]

theorem string_array_add_all_ok (ps : List Nat) :
    ∀ (h : Heap) (a : StringArray),
      a.strings.length + ps.length ≤ a.capacity →
    ∃ h' a', string_array_add_all h (some a) ps =
        (h', some a', List.replicate ps.length 0) ∧
      a'.strings.length = a.strings.length + ps.length ∧
      a'.capacity = a.capacity := by
  induction ps with
  | nil =>
    intro h a _
    exact ⟨h, a, rfl, by simp, rfl⟩
  | cons p rest ih =>
    intro h a hcap
    have hlt : ¬ a.capacity ≤ a.strings.length := by
      simp at hcap
      omega
    obtain ⟨h', a', heq, hlen, hc⟩ :=
      ih (h.alloc ((h.read p).getD [])).1 ⟨a.strings ++ [h.next], a.capacity⟩
        (by simp at hcap ⊢; omega)
    refine ⟨h', a', ?_, by simp at hlen ⊢; omega, hc⟩
    simp only [string_array_add_all,
      string_array_add_success h a p (by omega)]
    rw [heq]
    simp [List.replicate_succ]

/- ### claim theorems -/

/-- C10: for every buffer and every comparator,
`math_sort_array_with_callback` returns a buffer that is a permutation of
the input — sorting never loses, duplicates, or invents elements. -/
theorem C10_sort_is_permutation (l : List Int)
    (c : Option (Int → Int → Int)) :
    ∃ l', (math_sort_array_with_callback (some l) c).1 = some l' ∧
      l'.Perm l := by
  cases c with
  | none => exact ⟨l, rfl, List.Perm.refl l⟩
  | some cf =>
    by_cases hl : l.length = 0
    · exact ⟨l, by simp [math_sort_array_with_callback, hl], List.Perm.refl l⟩
    · exact ⟨sortLoop cf (l.length - 1) l,
        by simp [math_sort_array_with_callback, hl],
        sortLoop_perm cf (l.length - 1) l⟩

/-- C4: for every finite buffer and every valid total-order comparator,
`math_sort_array_with_callback` reorders the buffer so that it is
non-decreasing under that comparator, and applying it to an
already-sorted buffer leaves the buffer unchanged. -/
theorem C4_sort_sorts (c : Int → Int → Int) (hv : ValidComparator c)
    (l : List Int) (hne : l ≠ []) :
    math_sort_array_with_callback (some l) (some c) =
      (some (sortLoop c (l.length - 1) l), [MathError.success]) ∧
    SortedC c (sortLoop c (l.length - 1) l) ∧
    (SortedC c l → sortLoop c (l.length - 1) l = l) := by
  have hl0 : ¬ l.length = 0 := by simp [hne]
  exact ⟨by simp [math_sort_array_with_callback, hl0],
    sortLoop_sorted c hv l hne,
    fun hs => sortLoop_of_sorted c (l.length - 1) l hs⟩

/-- Witness for C4 at the comparator `cmpSub` and buffers `[3, 1, 2]`
(unsorted) and `[1, 2, 3]` (already sorted). -/
theorem C4_sort_sorts_witness :
    SortedC cmpSub (sortLoop cmpSub 2 [3, 1, 2]) ∧
    sortLoop cmpSub 2 [1, 2, 3] = [1, 2, 3] := by
  have hv : ValidComparator cmpSub := by
    constructor
    · intro a b
      simp only [cmpSub]
      omega
    · intro a b d h1 h2
      simp only [cmpSub] at h1 h2 ⊢
      omega
  refine ⟨(C4_sort_sorts cmpSub hv [3, 1, 2] (by decide)).2.1, ?_⟩
  exact (C4_sort_sorts cmpSub hv [1, 2, 3] (by decide)).2.2
    (by norm_num [SortedC, cmpSub, List.chain'_cons])

/-- C5: for every non-null buffer of length `n > 0` and non-null progress
callback, `math_process_with_progress` doubles each element and invokes
the callback exactly `n` times, the `k`-th invocation (0-based `k`)
receiving `(k + 1) / n`, so the values are strictly increasing, lie in
`(0, 1]`, and the last value equals exactly `1`. -/
theorem C5_progress_values (l : List Int) (hne : l ≠ []) :
    math_process_with_progress (some l) true =
      (some (l.map (fun x => x * 2)), progressValues l.length,
        [MathError.success]) ∧
    (progressValues l.length).length = l.length ∧
    (∀ k, k < l.length → (progressValues l.length)[k]? =
      some (((k + 1 : Nat) : Rat) / (l.length : Rat))) ∧
    List.Pairwise (· < ·) (progressValues l.length) ∧
    (∀ v ∈ progressValues l.length, 0 < v ∧ v ≤ 1) ∧
    (progressValues l.length).getLast? = some 1 := by
  have hpos : 0 < l.length := List.length_pos.mpr hne
  have hl0 : ¬ l.length = 0 := by omega
  have hnQ : (0 : Rat) < (l.length : Rat) := by exact_mod_cast hpos
  refine ⟨?_, by simp [progressValues], ?_, ?_, ?_, ?_⟩
  · have h2 := processLoop_snd l.length l 0
    simp only [Nat.zero_add] at h2
    simp [math_process_with_progress, hl0, processLoop_fst, h2,
      progressValues]
  · intro k hk
    simp [progressValues, List.getElem?_range hk]
  · refine List.pairwise_map.mpr ((List.pairwise_lt_range l.length).imp ?_)
    intro a b hab
    rw [div_lt_div_iff_of_pos_right hnQ]
    exact_mod_cast Nat.succ_lt_succ hab
  · intro v hv
    simp only [progressValues, List.mem_map, List.mem_range] at hv
    obtain ⟨j, hj, rfl⟩ := hv
    constructor
    · exact div_pos (by exact_mod_cast Nat.succ_pos j) hnQ
    · rw [div_le_one hnQ]
      exact_mod_cast hj
  · rw [List.getLast?_eq_getElem?]
    have hlen : (progressValues l.length).length = l.length := by
      simp [progressValues]
    rw [hlen]
    have hidx : l.length - 1 < l.length := by omega
    simp only [progressValues, List.getElem?_map, List.getElem?_range hidx,
      Option.map_some']
    rw [Nat.sub_add_cancel hpos]
    rw [div_self (by exact_mod_cast hl0 : ((l.length : Nat) : Rat) ≠ 0)]

/-- Witness for C5 at the buffer `[1, 2, 3]`. -/
theorem C5_progress_values_witness :
    math_process_with_progress (some [1, 2, 3]) true =
      (some [2, 4, 6], progressValues 3, [MathError.success]) ∧
    (progressValues 3).getLast? = some 1 :=
  ⟨by
    have h := (C5_progress_values [1, 2, 3] (by decide)).1
    simpa using h,
   (C5_progress_values [1, 2, 3] (by decide)).2.2.2.2.2⟩

/-- C1: for every capacity > 0, creating a collection
(`math_create_point_array` or `string_array_create`) and performing
`capacity` successful appends leaves `size()` equal to `capacity`, and
one further append fails with IndexOutOfBounds and leaves `size()`
unchanged. -/
theorem C1_fill_then_reject (cap : Nat) (hpos : 0 < cap) :
    (∀ ps : List Point2D, ps.length = cap →
      math_create_point_array true true cap =
        (some ⟨[], cap⟩, [MathError.success]) ∧
      math_add_points (some ⟨[], cap⟩) ps =
        (some ⟨ps, cap⟩, List.replicate cap 0) ∧
      math_get_point_count (some ⟨ps, cap⟩) = (cap, [MathError.success]) ∧
      (∀ q : Point2D, math_add_point (some ⟨ps, cap⟩) (some q) =
        (some ⟨ps, cap⟩, -1, [MathError.indexOutOfBounds]))) ∧
    (∀ (h : Heap) (ps : List Nat), ps.length = cap →
      string_array_create true true cap =
        (some ⟨[], cap⟩, [StringError.success]) ∧
      ∃ h' a', string_array_add_all h (some ⟨[], cap⟩) ps =
          (h', some a', List.replicate cap 0) ∧
        string_array_size (some a') = (cap, [StringError.success]) ∧
        (∀ q : Nat, string_array_add true h' (some a') (some q) =
          (h', some a', -1, [StringError.indexOutOfBounds]))) := by
  constructor
  · intro ps hps
    refine ⟨by simp [math_create_point_array, hpos.ne'], ?_, ?_, ?_⟩
    · have h := math_add_points_ok ps ⟨[], cap⟩ (by simp [hps])
      simpa [hps] using h
    · simp [math_get_point_count, hps]
    · intro q
      simp [math_add_point, hps]
  · intro h ps hps
    refine ⟨by simp [string_array_create, hpos.ne'], ?_⟩
    obtain ⟨h', a', heq, hlen, hc⟩ :=
      string_array_add_all_ok ps h ⟨[], cap⟩ (by simp [hps])
    simp only [List.length_nil, Nat.zero_add] at hlen
    refine ⟨h', a', by rw [heq, hps], ?_, ?_⟩
    · simp [string_array_size, hlen, hps]
    · intro q
      have hc' : a'.capacity = cap := hc
      exact string_array_add_full true h' a' q (by omega)

/-- Witness for C1 at capacity 2. -/
theorem C1_fill_then_reject_witness :
    math_add_points (some ⟨[], 2⟩) [⟨1, 2⟩, ⟨3, 4⟩] =
      (some ⟨[⟨1, 2⟩, ⟨3, 4⟩], 2⟩, List.replicate 2 0) ∧
    math_add_point (some ⟨[⟨1, 2⟩, ⟨3, 4⟩], 2⟩) (some ⟨5, 6⟩) =
      (some ⟨[⟨1, 2⟩, ⟨3, 4⟩], 2⟩, -1, [MathError.indexOutOfBounds]) :=
  ⟨((C1_fill_then_reject 2 (by decide)).1 [⟨1, 2⟩, ⟨3, 4⟩] (by decide)).2.1,
   ((C1_fill_then_reject 2 (by decide)).1 [⟨1, 2⟩, ⟨3, 4⟩] (by decide)).2.2.2
     ⟨5, 6⟩⟩

/-- C2: `string_array_add` stores a deep copy: the subsequent
`string_array_get` at the new index returns the freshly allocated
address, whose contents equal the inserted string, and neither mutating
nor freeing the caller's original buffer changes those contents. -/
theorem C2_deep_copy_isolation (h : Heap) (a : StringArray) (p : Nat)
    (s : List Char) (hwf : h.WF) (hp : h.read p = some s)
    (hroom : a.strings.length < a.capacity) :
    string_array_add true h (some a) (some p) =
      ((h.alloc s).1, some ⟨a.strings ++ [h.next], a.capacity⟩, 0,
        [StringError.success, StringError.success]) ∧
    string_array_get (some ⟨a.strings ++ [h.next], a.capacity⟩)
        a.strings.length = (some h.next, [StringError.success]) ∧
    (h.alloc s).1.read h.next = some s ∧
    (∀ v, ((h.alloc s).1.write p v).read h.next = some s) := by
  have hplt : p < h.next := by
    by_contra hge
    have hnone := hwf p (by omega)
    rw [Heap.read, hnone] at hp
    exact Option.noConfusion hp
  refine ⟨?_, ?_, ?_, ?_⟩
  · rw [string_array_add_success h a p hroom, hp]
    rfl
  · simp [string_array_get, List.getElem?_concat_length]
  · simp [Heap.alloc, Heap.read]
  · intro v
    show (if h.next = p then v else (h.alloc s).1.mem h.next) = some s
    rw [if_neg (by omega : ¬ h.next = p)]
    simp [Heap.alloc]

/-- Witness for C2: a one-byte string at address 0, mutated and freed
after insertion. -/
theorem C2_deep_copy_isolation_witness :
    ((((⟨fun n => if n = 0 then some ['a'] else none, 1⟩ : Heap).alloc
        ['a']).1.write 0 none).read 1 = some ['a']) ∧
    string_array_get (some ⟨[1], 1⟩) 0 = (some 1, [StringError.success]) := by
  have hwf : Heap.WF ⟨fun n => if n = 0 then some ['a'] else none, 1⟩ := by
    intro q hq
    have hq' : 1 ≤ q := hq
    show (if q = 0 then some ['a'] else none) = none
    rw [if_neg (by omega : ¬ q = 0)]
  refine ⟨?_, ?_⟩
  · exact (C2_deep_copy_isolation ⟨fun n => if n = 0 then some ['a'] else none, 1⟩
      ⟨[], 1⟩ 0 ['a'] hwf rfl (by decide)).2.2.2 none
  · have h := (C2_deep_copy_isolation ⟨fun n => if n = 0 then some ['a'] else none, 1⟩
      ⟨[], 1⟩ 0 ['a'] hwf rfl (by decide)).2.1
    simpa using h

/-- C6: if the deep copy in `string_array_add` fails with OutOfMemory,
the append fails, the count is not incremented, the stored elements and
heap are unchanged, and the register is left set to OutOfMemory. -/
theorem C6_oom_append_no_effect (h : Heap) (a : StringArray) (p : Nat)
    (hroom : a.strings.length < a.capacity) :
    string_array_add false h (some a) (some p) =
      (h, some a, -1, [StringError.outOfMemory]) ∧
    (∀ old, regAfter old (string_array_add false h (some a) (some p)).2.2.2 =
      StringError.outOfMemory) := by
  refine ⟨string_array_add_oom h a p hroom, fun old => ?_⟩
  rw [string_array_add_oom h a p hroom]
  rfl

/-- Witness for C6. -/
theorem C6_oom_append_no_effect_witness :
    string_array_add false ⟨fun _ => none, 0⟩ (some ⟨[], 1⟩) (some 0) =
      (⟨fun _ => none, 0⟩, some ⟨[], 1⟩, -1, [StringError.outOfMemory]) :=
  (C6_oom_append_no_effect ⟨fun _ => none, 0⟩ ⟨[], 1⟩ 0 (by decide)).1

/-- C7: append operations report the first applicable cause in the order
NullReference, then IndexOutOfBounds, then OutOfMemory; a full collection
is reported as IndexOutOfBounds without attempting the copy (heap
unchanged), and no call ever records more than one failure kind;
`create` likewise reports InvalidArgument for zero capacity before any
allocation concern. -/
theorem C7_error_priority :
    (∀ (ok : Bool) (h : Heap) (p : Option Nat),
      string_array_add ok h none p = (h, none, -1, [StringError.nullPointer])) ∧
    (∀ (ok : Bool) (h : Heap) (a : StringArray),
      string_array_add ok h (some a) none =
        (h, some a, -1, [StringError.nullPointer])) ∧
    (∀ (ok : Bool) (h : Heap) (a : StringArray) (p : Nat),
      a.capacity ≤ a.strings.length →
      string_array_add ok h (some a) (some p) =
        (h, some a, -1, [StringError.indexOutOfBounds])) ∧
    (∀ (ok : Bool) (h : Heap) (arr : Option StringArray) (p : Option Nat),
      ((string_array_add ok h arr p).2.2.2.filter
        (fun e => e ≠ StringError.success)).length ≤ 1) ∧
    (∀ p : Option Point2D,
      math_add_point none p = (none, -1, [MathError.nullPointer])) ∧
    (∀ a : PointArray,
      math_add_point (some a) none = (some a, -1, [MathError.nullPointer])) ∧
    (∀ (a : PointArray) (p : Point2D), a.capacity ≤ a.points.length →
      math_add_point (some a) (some p) =
        (some a, -1, [MathError.indexOutOfBounds])) ∧
    (∀ ok1 ok2 : Bool,
      string_array_create ok1 ok2 0 = (none, [StringError.invalidArgument]) ∧
      math_create_point_array ok1 ok2 0 =
        (none, [MathError.invalidArgument])) := by
  refine ⟨fun ok h p => rfl, fun ok h a => rfl,
    fun ok h a p hfull => string_array_add_full ok h a p hfull,
    ?_, fun p => rfl, fun a => rfl,
    fun a p hfull => by simp [math_add_point, hfull],
    fun ok1 ok2 => ⟨by simp [string_array_create],
      by simp [math_create_point_array]⟩⟩
  intro ok h arr p
  match arr, p with
  | none, _ => simp [string_array_add]
  | some a, none => simp [string_array_add]
  | some a, some q =>
    by_cases hfull : a.capacity ≤ a.strings.length
    · rw [string_array_add_full ok h a q hfull]
      simp
    · cases ok with
      | false => rw [string_array_add_oom h a q (by omega)]; simp
      | true => rw [string_array_add_success h a q (by omega)]; simp

/-- Witness for C7: a full single-slot collection rejects the append with
IndexOutOfBounds and an untouched heap. -/
theorem C7_error_priority_witness :
    string_array_add true ⟨fun _ => none, 0⟩ (some ⟨[4], 1⟩) (some 9) =
      (⟨fun _ => none, 0⟩, some ⟨[4], 1⟩, -1,
        [StringError.indexOutOfBounds]) :=
  C7_error_priority.2.2.1 true ⟨fun _ => none, 0⟩ ⟨[4], 1⟩ 9 (by decide)

/-- C9 counterexample: `size()` on an absent handle does set a failure
kind (NullReference), contradicting "never fails ... does not set a
failure kind". -/
theorem C9_size_null_sets_failure :
    string_array_size none = (0, [StringError.nullPointer]) ∧
    math_get_point_count none = (0, [MathError.nullPointer]) ∧
    StringError.nullPointer ≠ StringError.success ∧
    MathError.nullPointer ≠ MathError.success :=
  ⟨rfl, rfl, by decide, by decide⟩

/-- C9 amended: `size()` returns the count and sets Success for every
live handle; with an absent handle it returns 0 and sets NullReference
(the one failure path). -/
theorem C9_size_semantics :
    (∀ a : StringArray,
      string_array_size (some a) = (a.strings.length, [StringError.success])) ∧
    (∀ a : PointArray,
      math_get_point_count (some a) = (a.points.length, [MathError.success])) ∧
    string_array_size none = (0, [StringError.nullPointer]) ∧
    math_get_point_count none = (0, [MathError.nullPointer]) :=
  ⟨fun _ => rfl, fun _ => rfl, rfl, rfl⟩

/-- C8: `0 ≤ count ≤ capacity` holds in every reachable collection state;
`create` returns count = 0 with the chosen capacity (rejecting capacity
0 with InvalidArgument), each successful append increments count by
exactly one and is refused with IndexOutOfBounds when `count = capacity`,
and no append ever changes the capacity. -/
theorem C8_count_capacity_invariant :
    (∀ a : PointArray, ReachablePA a → a.points.length ≤ a.capacity) ∧
    (∀ a : StringArray, ReachableSA a → a.strings.length ≤ a.capacity) ∧
    (∀ ok1 ok2 : Bool,
      math_create_point_array ok1 ok2 0 = (none, [MathError.invalidArgument]) ∧
      string_array_create ok1 ok2 0 = (none, [StringError.invalidArgument])) ∧
    (∀ cap : Nat, cap ≠ 0 →
      math_create_point_array true true cap =
        (some ⟨[], cap⟩, [MathError.success]) ∧
      string_array_create true true cap =
        (some ⟨[], cap⟩, [StringError.success])) ∧
    (∀ (a : PointArray) (p : Point2D), a.points.length < a.capacity →
      math_add_point (some a) (some p) =
        (some ⟨a.points ++ [p], a.capacity⟩, 0, [MathError.success])) ∧
    (∀ (a : PointArray) (p : Point2D), a.capacity ≤ a.points.length →
      math_add_point (some a) (some p) =
        (some a, -1, [MathError.indexOutOfBounds])) ∧
    (∀ (h : Heap) (a : StringArray) (p : Nat),
      a.strings.length < a.capacity →
      (string_array_add true h (some a) (some p)).2.1 =
        some ⟨a.strings ++ [h.next], a.capacity⟩ ∧
      (string_array_add true h (some a) (some p)).2.2.1 = 0) ∧
    (∀ (ok : Bool) (h : Heap) (a : StringArray) (p : Nat),
      a.capacity ≤ a.strings.length →
      string_array_add ok h (some a) (some p) =
        (h, some a, -1, [StringError.indexOutOfBounds])) ∧
    (∀ (a : PointArray) (p : Option Point2D) (a' : PointArray),
      (math_add_point (some a) p).1 = some a' → a'.capacity = a.capacity) ∧
    (∀ (ok : Bool) (h : Heap) (a : StringArray) (p : Option Nat)
      (a' : StringArray),
      (string_array_add ok h (some a) p).2.1 = some a' →
      a'.capacity = a.capacity) := by
  refine ⟨?_, ?_, ?_, ?_, ?_, ?_, ?_, ?_, ?_, ?_⟩
  · intro a ha
    induction ha with
    | create cap hcap => simp
    | add a p a' ha hstep ih =>
      by_cases hfull : a.capacity ≤ a.points.length
      · simp only [math_add_point, if_pos hfull, Option.some.injEq] at hstep
        rw [← hstep]
        exact ih
      · simp only [math_add_point, if_neg hfull, Option.some.injEq] at hstep
        rw [← hstep]
        simp
        omega
  · intro a ha
    induction ha with
    | create cap hcap => simp
    | add ok h a p a' ha hstep ih =>
      cases p with
      | none =>
        simp only [string_array_add, Option.some.injEq] at hstep
        rw [← hstep]
        exact ih
      | some q =>
        by_cases hfull : a.capacity ≤ a.strings.length
        · rw [string_array_add_full ok h a q hfull] at hstep
          simp only [Option.some.injEq] at hstep
          rw [← hstep]
          exact ih
        · cases ok with
          | false =>
            rw [string_array_add_oom h a q (by omega)] at hstep
            simp only [Option.some.injEq] at hstep
            rw [← hstep]
            exact ih
          | true =>
            rw [string_array_add_success h a q (by omega)] at hstep
            simp only [Option.some.injEq] at hstep
            rw [← hstep]
            simp
            omega
  · intro ok1 ok2
    exact ⟨by simp [math_create_point_array], by simp [string_array_create]⟩
  · intro cap hcap
    exact ⟨by simp [math_create_point_array, hcap],
      by simp [string_array_create, hcap]⟩
  · intro a p hroom
    simp [math_add_point, not_le.mpr hroom]
  · intro a p hfull
    simp [math_add_point, hfull]
  · intro h a p hroom
    rw [string_array_add_success h a p hroom]
    exact ⟨rfl, rfl⟩
  · intro ok h a p hfull
    exact string_array_add_full ok h a p hfull
  · intro a p a' hstep
    cases p with
    | none =>
      simp only [math_add_point, Option.some.injEq] at hstep
      rw [← hstep]
    | some pt =>
      by_cases hfull : a.capacity ≤ a.points.length
      · simp only [math_add_point, if_pos hfull, Option.some.injEq] at hstep
        rw [← hstep]
      · simp only [math_add_point, if_neg hfull, Option.some.injEq] at hstep
        rw [← hstep]
  · intro ok h a p a' hstep
    cases p with
    | none =>
      simp only [string_array_add, Option.some.injEq] at hstep
      rw [← hstep]
    | some q =>
      by_cases hfull : a.capacity ≤ a.strings.length
      · rw [string_array_add_full ok h a q hfull] at hstep
        simp only [Option.some.injEq] at hstep
        rw [← hstep]
      · cases ok with
        | false =>
          rw [string_array_add_oom h a q (by omega)] at hstep
          simp only [Option.some.injEq] at hstep
          rw [← hstep]
        | true =>
          rw [string_array_add_success h a q (by omega)] at hstep
          simp only [Option.some.injEq] at hstep
          rw [← hstep]

/-- Witness for C8: the invariant at a concrete reachable two-element state,
and a concrete refused append at capacity. -/
theorem C8_count_capacity_invariant_witness :
    (⟨[⟨1, 2⟩], 1⟩ : PointArray).points.length ≤
      (⟨[⟨1, 2⟩], 1⟩ : PointArray).capacity ∧
    math_add_point (some ⟨[⟨1, 2⟩], 1⟩) (some ⟨3, 4⟩) =
      (some ⟨[⟨1, 2⟩], 1⟩, -1, [MathError.indexOutOfBounds]) :=
  ⟨C8_count_capacity_invariant.1 ⟨[⟨1, 2⟩], 1⟩
    (ReachablePA.add ⟨[], 1⟩ ⟨1, 2⟩ ⟨[⟨1, 2⟩], 1⟩
      (ReachablePA.create 1 (by decide)) (by simp [math_add_point])),
   C8_count_capacity_invariant.2.2.2.2.2.1 ⟨[⟨1, 2⟩], 1⟩ ⟨3, 4⟩ (by decide)⟩

/-- C3 counterexample: a successful `string_array_add` writes the error
register twice (once inside the nested `string_duplicate`, once itself),
not exactly once. -/
theorem C3_add_writes_register_twice :
    (string_array_add true ⟨fun _ => none, 1⟩ (some ⟨[], 1⟩)
      (some 0)).2.2.1 = 0 ∧
    (string_array_add true ⟨fun _ => none, 1⟩ (some ⟨[], 1⟩)
      (some 0)).2.2.2 = [StringError.success, StringError.success] ∧
    (string_array_add true ⟨fun _ => none, 1⟩ (some ⟨[], 1⟩)
      (some 0)).2.2.2.length ≠ 1 :=
  ⟨rfl, rfl, by decide⟩

/-- C3 amended: every modelled public operation writes the error register
at least once on every code path, and after a call satisfying its success
condition the register reads Success whatever the register held before
the call. -/
theorem C3_register_discipline :
    (∀ arr, (math_sum_array arr).2 ≠ [] ∧
      (arr ≠ none → ∀ old,
        regAfter old (math_sum_array arr).2 = MathError.success)) ∧
    (∀ arr, (math_average_array arr).2 ≠ [] ∧
      (∀ l, arr = some l → l ≠ [] → ∀ old,
        regAfter old (math_average_array arr).2 = MathError.success)) ∧
    (∀ (ok1 ok2 : Bool) (cap : Nat),
      (math_create_point_array ok1 ok2 cap).2 ≠ [] ∧
      (cap ≠ 0 → ok1 = true → ok2 = true → ∀ old,
        regAfter old (math_create_point_array ok1 ok2 cap).2 =
          MathError.success)) ∧
    (∀ arr, math_destroy_point_array arr ≠ [] ∧
      (arr ≠ none → ∀ old,
        regAfter old (math_destroy_point_array arr) = MathError.success)) ∧
    (∀ arr p, (math_add_point arr p).2.2 ≠ [] ∧
      ((math_add_point arr p).2.1 = 0 → ∀ old,
        regAfter old (math_add_point arr p).2.2 = MathError.success)) ∧
    (∀ arr idx, (math_get_point arr idx).2 ≠ [] ∧
      ((math_get_point arr idx).1 ≠ none → ∀ old,
        regAfter old (math_get_point arr idx).2 = MathError.success)) ∧
    (∀ arr, (math_get_point_count arr).2 ≠ [] ∧
      (arr ≠ none → ∀ old,
        regAfter old (math_get_point_count arr).2 = MathError.success)) ∧
    (∀ arr cmp, (math_sort_array_with_callback arr cmp).2 ≠ [] ∧
      (∀ l c, arr = some l → cmp = some c → l ≠ [] → ∀ old,
        regAfter old (math_sort_array_with_callback arr cmp).2 =
          MathError.success)) ∧
    (∀ arr hasCb, (math_process_with_progress arr hasCb).2.2 ≠ [] ∧
      (∀ l, arr = some l → hasCb = true → l ≠ [] → ∀ old,
        regAfter old (math_process_with_progress arr hasCb).2.2 =
          MathError.success)) ∧
    (∀ (ok : Bool) (h : Heap) (p : Option Nat),
      (string_duplicate ok h p).2.2 ≠ [] ∧
      (p ≠ none → ok = true → ∀ old,
        regAfter old (string_duplicate ok h p).2.2 = StringError.success)) ∧
    (∀ (ok1 ok2 : Bool) (cap : Nat),
      (string_array_create ok1 ok2 cap).2 ≠ [] ∧
      (cap ≠ 0 → ok1 = true → ok2 = true → ∀ old,
        regAfter old (string_array_create ok1 ok2 cap).2 =
          StringError.success)) ∧
    (∀ (h : Heap) arr, (string_array_destroy h arr).2 ≠ [] ∧
      (arr ≠ none → ∀ old,
        regAfter old (string_array_destroy h arr).2 = StringError.success)) ∧
    (∀ (ok : Bool) (h : Heap) arr p,
      (string_array_add ok h arr p).2.2.2 ≠ [] ∧
      ((string_array_add ok h arr p).2.2.1 = 0 → ∀ old,
        regAfter old (string_array_add ok h arr p).2.2.2 =
          StringError.success)) ∧
    (∀ arr idx, (string_array_get arr idx).2 ≠ [] ∧
      ((string_array_get arr idx).1 ≠ none → ∀ old,
        regAfter old (string_array_get arr idx).2 = StringError.success)) ∧
    (∀ arr, (string_array_size arr).2 ≠ [] ∧
      (arr ≠ none → ∀ old,
        regAfter old (string_array_size arr).2 = StringError.success)) := by
  refine ⟨?_, ?_, ?_, ?_, ?_, ?_, ?_, ?_, ?_, ?_, ?_, ?_, ?_, ?_, ?_⟩
  · intro arr
    cases arr with
    | none => exact ⟨by simp [math_sum_array], by simp⟩
    | some l => exact ⟨by simp [math_sum_array], fun _ old => rfl⟩
  · intro arr
    cases arr with
    | none => exact ⟨by simp [math_average_array], by simp⟩
    | some l =>
      by_cases hl : l.length = 0
      · exact ⟨by simp [math_average_array, hl], by
          intro l2 he hne old
          injection he with he
          subst he
          exact absurd (List.length_eq_zero.mp hl) hne⟩
      · exact ⟨by simp [math_average_array, hl, math_sum_array],
          fun l2 he hne old => by
            simp [math_average_array, hl, math_sum_array, regAfter]⟩
  · intro ok1 ok2 cap
    by_cases hc : cap = 0
    · exact ⟨by simp [math_create_point_array, hc], fun h => absurd hc h⟩
    · cases ok1 <;> cases ok2 <;>
        simp [math_create_point_array, hc, regAfter]
  · intro arr
    cases arr with
    | none => exact ⟨by simp [math_destroy_point_array], by simp⟩
    | some a => exact ⟨by simp [math_destroy_point_array], fun _ old => rfl⟩
  · intro arr p
    match arr, p with
    | none, _ => exact ⟨by simp [math_add_point], by simp [math_add_point]⟩
    | some a, none => exact ⟨by simp [math_add_point], by simp [math_add_point]⟩
    | some a, some pt =>
      by_cases hfull : a.capacity ≤ a.points.length
      · exact ⟨by simp [math_add_point, hfull],
          by simp [math_add_point, hfull]⟩
      · exact ⟨by simp [math_add_point, hfull],
          fun _ old => by simp [math_add_point, hfull, regAfter]⟩
  · intro arr idx
    cases arr with
    | none => exact ⟨by simp [math_get_point], by simp [math_get_point]⟩
    | some a =>
      by_cases hidx : idx < a.points.length
      · exact ⟨by simp [math_get_point, hidx],
          fun _ old => by simp [math_get_point, hidx, regAfter]⟩
      · exact ⟨by simp [math_get_point, hidx],
          by simp [math_get_point, hidx]⟩
  · intro arr
    cases arr with
    | none => exact ⟨by simp [math_get_point_count], by simp⟩
    | some a => exact ⟨by simp [math_get_point_count], fun _ old => rfl⟩
  · intro arr cmp
    match arr, cmp with
    | none, _ => exact ⟨by simp [math_sort_array_with_callback], by simp⟩
    | some l, none =>
      exact ⟨by simp [math_sort_array_with_callback], by simp⟩
    | some l, some c =>
      by_cases hl : l.length = 0
      · refine ⟨by simp [math_sort_array_with_callback, hl], ?_⟩
        intro l2 c2 he1 he2 hne old
        injection he1 with he1
        subst he1
        exact absurd (List.length_eq_zero.mp hl) hne
      · exact ⟨by simp [math_sort_array_with_callback, hl],
          fun l2 c2 he1 he2 hne old => by
            simp [math_sort_array_with_callback, hl, regAfter]⟩
  · intro arr hasCb
    match arr, hasCb with
    | none, _ => exact ⟨by simp [math_process_with_progress], by simp⟩
    | some l, false => exact ⟨by simp [math_process_with_progress], by simp⟩
    | some l, true =>
      by_cases hl : l.length = 0
      · refine ⟨by simp [math_process_with_progress, hl], ?_⟩
        intro l2 he1 he2 hne old
        injection he1 with he1
        subst he1
        exact absurd (List.length_eq_zero.mp hl) hne
      · exact ⟨by simp [math_process_with_progress, hl],
          fun l2 he1 he2 hne old => by
            simp [math_process_with_progress, hl, regAfter]⟩
  · intro ok h p
    match p with
    | none => exact ⟨by simp [string_duplicate], by simp⟩
    | some addr =>
      cases ok with
      | false => exact ⟨by simp [string_duplicate], by simp⟩
      | true => exact ⟨by simp [string_duplicate],
          fun _ _ old => by simp [string_duplicate, regAfter]⟩
  · intro ok1 ok2 cap
    by_cases hc : cap = 0
    · exact ⟨by simp [string_array_create, hc], fun h => absurd hc h⟩
    · cases ok1 <;> cases ok2 <;>
        simp [string_array_create, hc, regAfter]
  · intro h arr
    cases arr with
    | none => exact ⟨by simp [string_array_destroy], by simp⟩
    | some a => exact ⟨by simp [string_array_destroy], fun _ old => rfl⟩
  · intro ok h arr p
    match arr, p with
    | none, _ => exact ⟨by simp [string_array_add], by simp [string_array_add]⟩
    | some a, none =>
      exact ⟨by simp [string_array_add], by simp [string_array_add]⟩
    | some a, some q =>
      by_cases hfull : a.capacity ≤ a.strings.length
      · rw [string_array_add_full ok h a q hfull]
        exact ⟨by simp, by simp⟩
      · cases ok with
        | false =>
          rw [string_array_add_oom h a q (by omega)]
          exact ⟨by simp, by simp⟩
        | true =>
          rw [string_array_add_success h a q (by omega)]
          exact ⟨by simp, fun _ old => by simp [regAfter]⟩
  · intro arr idx
    cases arr with
    | none => exact ⟨by simp [string_array_get], by simp [string_array_get]⟩
    | some a =>
      by_cases hidx : idx < a.strings.length
      · exact ⟨by simp [string_array_get, hidx],
          fun _ old => by simp [string_array_get, hidx, regAfter]⟩
      · exact ⟨by simp [string_array_get, hidx],
          by simp [string_array_get, hidx]⟩
  · intro arr
    cases arr with
    | none => exact ⟨by simp [string_array_size], by simp⟩
    | some a => exact ⟨by simp [string_array_size], fun _ old => rfl⟩

/-- Witness for the amended C3: a successful append performed while the
register holds a stale ParseError leaves the register reading Success. -/
theorem C3_register_discipline_witness :
    regAfter StringError.parseError
      (string_array_add true ⟨fun _ => none, 1⟩ (some ⟨[], 1⟩)
        (some 0)).2.2.2 = StringError.success :=
  (C3_register_discipline.2.2.2.2.2.2.2.2.2.2.2.2.1 true ⟨fun _ => none, 1⟩
    (some ⟨[], 1⟩) (some 0)).2 rfl StringError.parseError
